import Mathlib

/-!
Shallow embedding of the Rust crate `multi_stack_queue` (`src/lib.rs`):
a stack-allocated container of `M` independent bounded FIFO queues
("lanes"), each a ring buffer of `N` optional slots with an insertion
cursor, a removal cursor and an emptiness flag.

The four fixed-length arrays of `MultiStackQueue<T, N, M>` are modelled as
functions; only indices below `M` (and slot indices below `N`) are ever
read or written by the operations, matching the Rust arrays `[_; M]` and
`[_; N]`.  Fallible operations return an `Option`: `none` models a Rust
panic (an out-of-bounds array index, a remainder by zero, or `unwrap` of
`None`), while `some (r, q')` models normal return of the `Result` `r`
with post-state `q'`.
-/

set_option linter.unusedVariables false

/-- Error type of the multiqueue, mirroring `enum MSQError` of `src/lib.rs`
(the last constructor keeps the source's spelling `UnknowmError`). -/
inductive MSQError where
  | QueueFull
  | QueueEmpty
  | QueueIndexOutOfBounds
  | UnknowmError
deriving DecidableEq

/-- State of `MultiStackQueue<T, N, M>`: fields `data`, `ins`, `outs`,
`empty` of the Rust struct. -/
structure MultiStackQueue (T : Type) (N M : Nat) where
  data : Nat → Nat → Option T
  ins : Nat → Nat
  outs : Nat → Nat
  empty : Nat → Bool

namespace MultiStackQueue

variable {T : Type} {N M : Nat}

/-- `MultiStackQueue::new`: all slots `None`, all cursors `0`, all lanes
flagged empty.  Construction is a total function: no fallible path. -/
def new (T : Type) (N M : Nat) : MultiStackQueue T N M :=
  { data := fun _ _ => none
    ins := fun _ => 0
    outs := fun _ => 0
    empty := fun _ => true }

/-- The post-state built by the success branch of `try_and_push`
(lines 149-151 of `src/lib.rs`): write `Some value` at slot `ins[id]` of
lane `id`, advance `ins[id]` modulo `N`, clear the empty flag. -/
def pushState (q : MultiStackQueue T N M) (id : Nat) (value : T) :
    MultiStackQueue T N M :=
  { data := fun j s => if j = id ∧ s = q.ins id then some value else q.data j s
    ins := fun j => if j = id then (q.ins id + 1) % N else q.ins j
    outs := q.outs
    empty := fun j => if j = id then false else q.empty j }

/-- `try_and_push` (lines 144-154 of `src/lib.rs`).  Reading any of the
bookkeeping arrays at `id` panics when `id ≥ M` (outer guard); the write
`data[id][ins[id]] = Some(value)` panics when `ins id ≥ N` (inner guard;
when it succeeds `N > 0`, so the subsequent `% N` cannot divide by
zero). -/
def try_and_push (q : MultiStackQueue T N M) (id : Nat) (value : T) :
    Option (Except MSQError Unit × MultiStackQueue T N M) :=
  if id < M then
    if q.ins id = q.outs id ∧ q.empty id = false then
      some (Except.error MSQError.QueueFull, q)
    else
      if q.ins id < N then some (Except.ok (), pushState q id value)
      else none
  else none

/-- `MultiStackQueue::push` (lines 138-143 of `src/lib.rs`): bounds check,
then `try_and_push`. -/
def push (q : MultiStackQueue T N M) (id : Nat) (value : T) :
    Option (Except MSQError Unit × MultiStackQueue T N M) :=
  if M ≤ id then some (Except.error MSQError.QueueIndexOutOfBounds, q)
  else q.try_and_push id value

/-- The post-state built by the success branch of `try_and_pop`
(lines 187-191 of `src/lib.rs`): `take()` vacates slot `outs[id]` of lane
`id`, `outs[id]` advances modulo `N`, and the empty flag is set when the
new `outs[id]` meets `ins[id]` (otherwise it keeps its old value). -/
def popState (q : MultiStackQueue T N M) (id : Nat) : MultiStackQueue T N M :=
  { data := fun j s => if j = id ∧ s = q.outs id then none else q.data j s
    ins := q.ins
    outs := fun j => if j = id then (q.outs id + 1) % N else q.outs j
    empty := fun j =>
      if j = id then
        if (q.outs id + 1) % N = q.ins id then true else q.empty id
      else q.empty j }

/-- `try_and_pop` (lines 182-194 of `src/lib.rs`).  Reading `empty[id]`
panics when `id ≥ M` (outer guard); the read `data[id][outs[id]]` panics
when `outs id ≥ N`; `take().unwrap()` panics when that slot is `None`. -/
def try_and_pop (q : MultiStackQueue T N M) (id : Nat) :
    Option (Except MSQError T × MultiStackQueue T N M) :=
  if id < M then
    if q.empty id = true then some (Except.error MSQError.QueueEmpty, q)
    else
      if q.outs id < N then
        match q.data id (q.outs id) with
        | some res => some (Except.ok res, popState q id)
        | none => none
      else none
  else none

/-- `MultiStackQueue::pop` (lines 176-181 of `src/lib.rs`): bounds check,
then `try_and_pop`. -/
def pop (q : MultiStackQueue T N M) (id : Nat) :
    Option (Except MSQError T × MultiStackQueue T N M) :=
  if M ≤ id then some (Except.error MSQError.QueueIndexOutOfBounds, q)
  else q.try_and_pop id

/-- `is_full` (lines 210-212 of `src/lib.rs`):
`!self.empty[id] && self.ins[id] == self.outs[id]`, with no bounds check;
indexing the length-`M` arrays panics (`none`) when `id ≥ M`. -/
def is_full (q : MultiStackQueue T N M) (id : Nat) : Option Bool :=
  if id < M then some (!q.empty id && (q.ins id == q.outs id)) else none

/-- `is_empty` (lines 213-215 of `src/lib.rs`): `self.empty[id]`, with no
bounds check; indexing panics (`none`) when `id ≥ M`. -/
def is_empty (q : MultiStackQueue T N M) (id : Nat) : Option Bool :=
  if id < M then some (q.empty id) else none

/-- Number of values held by lane `id`, read off the cursor/flag state:
`0` when the empty flag is set, otherwise the cursor distance walked
modulo `N`. -/
def laneSize (q : MultiStackQueue T N M) (id : Nat) : Nat :=
  if q.empty id = true then 0
  else if q.outs id < q.ins id then q.ins id - q.outs id
  else N - q.outs id + q.ins id

/-- Contents of lane `id` in FIFO order: the slots from `outs id`
(inclusive) walked `laneSize` steps modulo `N`. -/
def laneVals (q : MultiStackQueue T N M) (id : Nat) : List (Option T) :=
  (List.range (laneSize q id)).map (fun t => q.data id ((q.outs id + t) % N))

/-- Iterated `push` of a list of values to lane `id`; `some q'` exactly
when every push returned `Ok` (a panic or an error aborts the run). -/
def pushSeq (q : MultiStackQueue T N M) (id : Nat) :
    List T → Option (MultiStackQueue T N M)
  | [] => some q
  | v :: vs =>
    match q.push id v with
    | some (Except.ok _, q') => q'.pushSeq id vs
    | _ => none

/-- Iterated `pop` from lane `id`, `k` times; `some (vs, q')` exactly when
every pop returned `Ok`, with `vs` the popped values in order. -/
def popSeq (q : MultiStackQueue T N M) (id : Nat) :
    Nat → Option (List T × MultiStackQueue T N M)
  | 0 => some ([], q)
  | k + 1 =>
    match q.pop id with
    | some (Except.ok v, q') =>
      match q'.popSeq id k with
      | some (vs, q'') => some (v :: vs, q'')
      | none => none
    | _ => none

/-- States reachable from `new` by `push` and `pop` calls that return
normally (a panic has no post-state). -/
inductive Reachable (T : Type) (N M : Nat) : MultiStackQueue T N M → Prop where
  | init : Reachable T N M (new T N M)
  | push_step {q q' : MultiStackQueue T N M} {id : Nat} {v : T}
      {r : Except MSQError Unit} :
      Reachable T N M q → q.push id v = some (r, q') → Reachable T N M q'
  | pop_step {q q' : MultiStackQueue T N M} {id : Nat}
      {r : Except MSQError T} :
      Reachable T N M q → q.pop id = some (r, q') → Reachable T N M q'

/-- Ring-buffer invariant of the data model (spec section 3): for every
lane, both cursors are in `[0, N)`; when the empty flag is set the
cursors coincide; and a slot holds a value exactly when it lies in the
window of `laneSize` slots starting at `outs`, walked modulo `N`. -/
def Inv (q : MultiStackQueue T N M) : Prop :=
  ∀ id, id < M →
    q.ins id < N ∧ q.outs id < N ∧
    (q.empty id = true → q.ins id = q.outs id) ∧
    (∀ s, s < N →
      ((q.data id s).isSome = true ↔
        ∃ t, t < laneSize q id ∧ (q.outs id + t) % N = s))

/-- Walking distinct offsets below `n` from a common origin modulo `n`
lands on distinct slots. -/
theorem mod_cancel {n o a b : Nat} (ha : a < n) (hb : b < n)
    (h : (o + a) % n = (o + b) % n) : a = b := by
  have h2 : a ≡ b [MOD n] := Nat.ModEq.add_left_cancel' o h
  rwa [Nat.ModEq, Nat.mod_eq_of_lt ha, Nat.mod_eq_of_lt hb] at h2

/-- Cursor distance from `o` to `(o + k) % n`, read the way `laneSize`
reads it, recovers `k` whenever `0 < k ≤ n`. -/
theorem size_formula {n o k : Nat} (ho : o < n) (hk0 : 0 < k) (hkN : k ≤ n) :
    (if o < (o + k) % n then (o + k) % n - o else n - o + (o + k) % n) = k := by
  rcases lt_or_ge (o + k) n with h | h
  · rw [Nat.mod_eq_of_lt h, if_pos (by omega)]
    omega
  · have h2 : o + k - n < n := by omega
    rw [Nat.mod_eq_sub_mod h, Nat.mod_eq_of_lt h2, if_neg (by omega)]
    omega

theorem laneSize_of_empty {q : MultiStackQueue T N M} {id : Nat}
    (he : q.empty id = true) : laneSize q id = 0 := by
  simp [laneSize, he]

theorem laneVals_length (q : MultiStackQueue T N M) (id : Nat) :
    (laneVals q id).length = laneSize q id := by
  simp [laneVals]

theorem laneVals_of_empty {q : MultiStackQueue T N M} {id : Nat}
    (he : q.empty id = true) : laneVals q id = [] := by
  simp [laneVals, laneSize_of_empty he]

theorem size_pos_of_not_empty {q : MultiStackQueue T N M} {id : Nat}
    (ho : q.outs id < N) (he : q.empty id = false) : 0 < laneSize q id := by
  rw [laneSize, he]
  simp only [Bool.false_eq_true, if_false]
  split <;> omega

theorem size_le {q : MultiStackQueue T N M} {id : Nat}
    (hi : q.ins id < N) (ho : q.outs id < N) : laneSize q id ≤ N := by
  rw [laneSize]
  split
  · omega
  · split <;> omega

/-- The insertion cursor sits `laneSize` slots past the removal cursor,
modulo `N`. -/
theorem ins_eq_outs_add_size {q : MultiStackQueue T N M} {id : Nat}
    (hi : q.ins id < N) (ho : q.outs id < N)
    (hei : q.empty id = true → q.ins id = q.outs id) :
    q.ins id = (q.outs id + laneSize q id) % N := by
  cases he : q.empty id with
  | true => rw [laneSize_of_empty he, Nat.add_zero, Nat.mod_eq_of_lt ho, hei he]
  | false =>
    rw [laneSize, he]
    simp only [Bool.false_eq_true, if_false]
    rcases lt_or_ge (q.outs id) (q.ins id) with h | h
    · rw [if_pos h, Nat.add_sub_cancel' (Nat.le_of_lt h), Nat.mod_eq_of_lt hi]
    · rw [if_neg (Nat.not_lt.mpr h)]
      have h2 : q.outs id + (N - q.outs id + q.ins id) = N + q.ins id := by
        omega
      rw [h2, Nat.add_mod_left, Nat.mod_eq_of_lt hi]

/-- The Rust fullness test `ins == outs && !empty` says exactly that the
lane holds `N` values. -/
theorem full_iff_size_eq {q : MultiStackQueue T N M} {id : Nat}
    (hi : q.ins id < N) (ho : q.outs id < N) :
    (q.ins id = q.outs id ∧ q.empty id = false) ↔ laneSize q id = N := by
  constructor
  · rintro ⟨heq, he⟩
    rw [laneSize, he]
    simp only [Bool.false_eq_true, if_false]
    rw [heq, if_neg (Nat.lt_irrefl _)]
    omega
  · intro hsz
    cases he : q.empty id with
    | true =>
      rw [laneSize_of_empty he] at hsz
      omega
    | false =>
      rw [laneSize, he] at hsz
      simp only [Bool.false_eq_true, if_false] at hsz
      refine ⟨?_, rfl⟩
      rcases Nat.lt_or_ge (q.outs id) (q.ins id) with h | h
      · rw [if_pos h] at hsz
        omega
      · rw [if_neg (Nat.not_lt.mpr h)] at hsz
        omega

theorem size_lt_of_not_full {q : MultiStackQueue T N M} {id : Nat}
    (hi : q.ins id < N) (ho : q.outs id < N)
    (hnf : ¬(q.ins id = q.outs id ∧ q.empty id = false)) :
    laneSize q id < N :=
  Nat.lt_of_le_of_ne (size_le hi ho) (fun h => hnf ((full_iff_size_eq hi ho).mpr h))

theorem shift_mod (o t n : Nat) : ((o + 1) % n + t) % n = (o + (t + 1)) % n := by
  rw [Nat.mod_add_mod]
  congr 1
  omega

theorem push_eq_oob {q : MultiStackQueue T N M} {id : Nat} (h : M ≤ id) (v : T) :
    q.push id v = some (Except.error MSQError.QueueIndexOutOfBounds, q) := by
  rw [push, if_pos h]

theorem push_eq_full {q : MultiStackQueue T N M} {id : Nat} (hid : id < M)
    (hf : q.ins id = q.outs id ∧ q.empty id = false) (v : T) :
    q.push id v = some (Except.error MSQError.QueueFull, q) := by
  rw [push, if_neg (by omega), try_and_push, if_pos hid, if_pos hf]

theorem push_eq_ok {q : MultiStackQueue T N M} {id : Nat} (hid : id < M)
    (hnf : ¬(q.ins id = q.outs id ∧ q.empty id = false)) (hiN : q.ins id < N)
    (v : T) : q.push id v = some (Except.ok (), pushState q id v) := by
  rw [push, if_neg (by omega), try_and_push, if_pos hid, if_neg hnf, if_pos hiN]

theorem pop_eq_oob {q : MultiStackQueue T N M} {id : Nat} (h : M ≤ id) :
    q.pop id = some (Except.error MSQError.QueueIndexOutOfBounds, q) := by
  rw [pop, if_pos h]

theorem pop_eq_empty {q : MultiStackQueue T N M} {id : Nat} (hid : id < M)
    (he : q.empty id = true) :
    q.pop id = some (Except.error MSQError.QueueEmpty, q) := by
  rw [pop, if_neg (by omega), try_and_pop, if_pos hid, if_pos he]

theorem pop_eq_ok {q : MultiStackQueue T N M} {id : Nat} (hid : id < M)
    (he : q.empty id = false) (hoN : q.outs id < N) {res : T}
    (hres : q.data id (q.outs id) = some res) :
    q.pop id = some (Except.ok res, popState q id) := by
  rw [pop, if_neg (by omega), try_and_pop, if_pos hid, if_neg (by simp [he]),
    if_pos hoN, hres]

/-- Inversion of `push`: every non-panicking call falls in exactly one of
the three branches of the source. -/
theorem push_cases {q q' : MultiStackQueue T N M} {id : Nat} {v : T}
    {r : Except MSQError Unit} (h : q.push id v = some (r, q')) :
    (M ≤ id ∧ r = Except.error MSQError.QueueIndexOutOfBounds ∧ q' = q) ∨
    (id < M ∧ (q.ins id = q.outs id ∧ q.empty id = false) ∧
      r = Except.error MSQError.QueueFull ∧ q' = q) ∨
    (id < M ∧ ¬(q.ins id = q.outs id ∧ q.empty id = false) ∧ q.ins id < N ∧
      r = Except.ok () ∧ q' = pushState q id v) := by
  rw [push] at h
  split_ifs at h with h1
  · left
    simp only [Option.some.injEq, Prod.mk.injEq] at h
    exact ⟨h1, h.1.symm, h.2.symm⟩
  · rw [try_and_push] at h
    split_ifs at h with h2 h3 h4
    · right; left
      simp only [Option.some.injEq, Prod.mk.injEq] at h
      exact ⟨h2, h3, h.1.symm, h.2.symm⟩
    · right; right
      simp only [Option.some.injEq, Prod.mk.injEq] at h
      exact ⟨h2, h3, h4, h.1.symm, h.2.symm⟩

/-- Inversion of `pop`: every non-panicking call falls in exactly one of
the three branches of the source. -/
theorem pop_cases {q q' : MultiStackQueue T N M} {id : Nat}
    {r : Except MSQError T} (h : q.pop id = some (r, q')) :
    (M ≤ id ∧ r = Except.error MSQError.QueueIndexOutOfBounds ∧ q' = q) ∨
    (id < M ∧ q.empty id = true ∧ r = Except.error MSQError.QueueEmpty ∧
      q' = q) ∨
    (id < M ∧ q.empty id = false ∧ q.outs id < N ∧
      ∃ res, q.data id (q.outs id) = some res ∧ r = Except.ok res ∧
        q' = popState q id) := by
  rw [pop] at h
  split_ifs at h with h1
  · left
    simp only [Option.some.injEq, Prod.mk.injEq] at h
    exact ⟨h1, h.1.symm, h.2.symm⟩
  · rw [try_and_pop] at h
    split_ifs at h with h2 h3 h4
    · right; left
      simp only [Option.some.injEq, Prod.mk.injEq] at h
      exact ⟨h2, h3, h.1.symm, h.2.symm⟩
    · right; right
      have he : q.empty id = false := by simp at h3; exact h3
      rcases hmatch : q.data id (q.outs id) with _ | res
      · rw [hmatch] at h
        exact Option.noConfusion h
      · rw [hmatch] at h
        simp only [Option.some.injEq, Prod.mk.injEq] at h
        exact ⟨h2, he, h4, res, rfl, h.1.symm, h.2.symm⟩

theorem pushState_frame {q : MultiStackQueue T N M} {id j : Nat}
    (hj : j ≠ id) (v : T) :
    (pushState q id v).ins j = q.ins j ∧
    (pushState q id v).outs j = q.outs j ∧
    (pushState q id v).empty j = q.empty j ∧
    ∀ s, (pushState q id v).data j s = q.data j s := by
  refine ⟨?_, rfl, ?_, ?_⟩ <;> simp [pushState, hj]

theorem popState_frame {q : MultiStackQueue T N M} {id j : Nat}
    (hj : j ≠ id) :
    (popState q id).ins j = q.ins j ∧
    (popState q id).outs j = q.outs j ∧
    (popState q id).empty j = q.empty j ∧
    ∀ s, (popState q id).data j s = q.data j s := by
  refine ⟨rfl, ?_, ?_, ?_⟩ <;> simp [popState, hj]

theorem laneSize_pushState_frame {q : MultiStackQueue T N M} {id j : Nat}
    (hj : j ≠ id) (v : T) : laneSize (pushState q id v) j = laneSize q j := by
  simp [laneSize, pushState, hj]

theorem laneSize_popState_frame {q : MultiStackQueue T N M} {id j : Nat}
    (hj : j ≠ id) : laneSize (popState q id) j = laneSize q j := by
  simp [laneSize, popState, hj]

theorem laneSize_pushState {q : MultiStackQueue T N M} {id : Nat}
    (hi : q.ins id < N) (ho : q.outs id < N)
    (hei : q.empty id = true → q.ins id = q.outs id)
    (hnf : ¬(q.ins id = q.outs id ∧ q.empty id = false)) (v : T) :
    laneSize (pushState q id v) id = laneSize q id + 1 := by
  have hszlt := size_lt_of_not_full hi ho hnf
  have hins := ins_eq_outs_add_size hi ho hei
  have he' : (pushState q id v).empty id = false := by simp [pushState]
  have ho' : (pushState q id v).outs id = q.outs id := rfl
  have hi' : (pushState q id v).ins id =
      (q.outs id + (laneSize q id + 1)) % N := by
    have h1 : (pushState q id v).ins id = (q.ins id + 1) % N := by
      simp [pushState]
    rw [h1, hins, Nat.mod_add_mod, Nat.add_assoc]
  rw [laneSize, he']
  simp only [Bool.false_eq_true, if_false]
  rw [ho', hi']
  exact size_formula ho (by omega) (by omega)

theorem inv_pushState {q : MultiStackQueue T N M} {id : Nat}
    (hInv : Inv q) (hid : id < M)
    (hnf : ¬(q.ins id = q.outs id ∧ q.empty id = false)) (v : T) :
    Inv (pushState q id v) := by
  obtain ⟨hi, ho, hei, hocc⟩ := hInv id hid
  have h0 : 0 < N := by omega
  have hins := ins_eq_outs_add_size hi ho hei
  have hszlt := size_lt_of_not_full hi ho hnf
  have hsz' := laneSize_pushState hi ho hei hnf v
  intro j hj
  by_cases hji : j = id
  · subst hji
    refine ⟨?_, ho, ?_, ?_⟩
    · have h1 : (pushState q j v).ins j = (q.ins j + 1) % N := by
        simp [pushState]
      rw [h1]
      exact Nat.mod_lt _ h0
    · intro h
      simp [pushState] at h
    · intro s hs
      rw [hsz']
      have hdata : (pushState q j v).data j s =
          if s = q.ins j then some v else q.data j s := by
        simp [pushState]
      have houts : (pushState q j v).outs j = q.outs j := rfl
      rw [hdata, houts]
      by_cases hsi : s = q.ins j
      · rw [if_pos hsi]
        simp only [Option.isSome_some, true_iff]
        exact ⟨laneSize q j, by omega, by rw [← hins]; exact hsi.symm⟩
      · rw [if_neg hsi, hocc s hs]
        constructor
        · rintro ⟨t, ht, hts⟩
          exact ⟨t, by omega, hts⟩
        · rintro ⟨t, ht, hts⟩
          refine ⟨t, ?_, hts⟩
          rcases Nat.lt_or_ge t (laneSize q j) with h | h
          · exact h
          · exfalso
            have ht2 : t = laneSize q j := by omega
            subst ht2
            exact hsi (hts.symm.trans hins.symm)
  · obtain ⟨hins', houts', hemp', hdata'⟩ := pushState_frame hji v
    obtain ⟨hi2, ho2, hei2, hocc2⟩ := hInv j hj
    refine ⟨by rw [hins']; exact hi2, by rw [houts']; exact ho2, ?_, ?_⟩
    · rw [hemp', hins', houts']
      exact hei2
    · intro s hs
      rw [hdata' s, houts', laneSize_pushState_frame hji v]
      exact hocc2 s hs

theorem laneVals_pushState {q : MultiStackQueue T N M} {id : Nat}
    (hi : q.ins id < N) (ho : q.outs id < N)
    (hei : q.empty id = true → q.ins id = q.outs id)
    (hnf : ¬(q.ins id = q.outs id ∧ q.empty id = false)) (v : T) :
    laneVals (pushState q id v) id = laneVals q id ++ [some v] := by
  have h0 : 0 < N := by omega
  have hins := ins_eq_outs_add_size hi ho hei
  have hszlt := size_lt_of_not_full hi ho hnf
  have houts : (pushState q id v).outs id = q.outs id := rfl
  rw [laneVals, laneVals, laneSize_pushState hi ho hei hnf v, houts,
    List.range_succ, List.map_append]
  congr 1
  · apply List.map_congr_left
    intro t ht
    rw [List.mem_range] at ht
    have hne : (q.outs id + t) % N ≠ q.ins id := by
      intro hcontra
      have ht2 : t = laneSize q id :=
        mod_cancel (by omega) hszlt (by rw [hcontra]; exact hins)
      omega
    simp [pushState, hne]
  · have hlast : (q.outs id + laneSize q id) % N = q.ins id := hins.symm
    simp [pushState, hlast]

theorem pop_flag_iff {q : MultiStackQueue T N M} {id : Nat}
    (hi : q.ins id < N) (ho : q.outs id < N)
    (hei : q.empty id = true → q.ins id = q.outs id)
    (he : q.empty id = false) :
    ((q.outs id + 1) % N = q.ins id ↔ laneSize q id = 1) := by
  have h0 : 0 < N := by omega
  have hins := ins_eq_outs_add_size hi ho hei
  have hpos := size_pos_of_not_empty ho he
  have hle := size_le hi ho
  constructor
  · intro h
    have h2 : (q.outs id + 1) % N = (q.outs id + laneSize q id) % N := by
      rw [h, hins]
    have h3 : 1 % N = laneSize q id % N :=
      Nat.ModEq.add_left_cancel' (q.outs id) h2
    rcases Nat.lt_or_ge (laneSize q id) N with hlt | hge
    · rcases Nat.lt_or_ge 1 N with h1N | h1N
      · rw [Nat.mod_eq_of_lt h1N, Nat.mod_eq_of_lt hlt] at h3
        omega
      · omega
    · have hszN : laneSize q id = N := by omega
      rcases Nat.lt_or_ge 1 N with h1N | h1N
      · rw [Nat.mod_eq_of_lt h1N, hszN, Nat.mod_self] at h3
        omega
      · omega
  · intro h
    rw [hins, h]

theorem laneSize_popState {q : MultiStackQueue T N M} {id : Nat}
    (hi : q.ins id < N) (ho : q.outs id < N)
    (hei : q.empty id = true → q.ins id = q.outs id)
    (he : q.empty id = false) :
    laneSize (popState q id) id = laneSize q id - 1 := by
  have h0 : 0 < N := by omega
  have hins := ins_eq_outs_add_size hi ho hei
  have hpos := size_pos_of_not_empty ho he
  have hle := size_le hi ho
  have hflag := pop_flag_iff hi ho hei he
  by_cases hc : (q.outs id + 1) % N = q.ins id
  · have hsz1 : laneSize q id = 1 := hflag.mp hc
    have he' : (popState q id).empty id = true := by simp [popState, hc]
    rw [laneSize_of_empty he', hsz1]
  · have hsz : laneSize q id ≠ 1 := fun h => hc (hflag.mpr h)
    have he' : (popState q id).empty id = false := by simp [popState, hc, he]
    have ho' : (popState q id).outs id = (q.outs id + 1) % N := by
      simp [popState]
    have hi' : (popState q id).ins id = q.ins id := rfl
    rw [laneSize, he']
    simp only [Bool.false_eq_true, if_false]
    rw [ho', hi']
    have hostep : (q.outs id + 1) % N < N := Nat.mod_lt _ h0
    have hins2 : q.ins id = ((q.outs id + 1) % N + (laneSize q id - 1)) % N := by
      rw [Nat.mod_add_mod]
      have harith : q.outs id + 1 + (laneSize q id - 1) =
          q.outs id + laneSize q id := by omega
      rw [harith]
      exact hins
    rw [hins2]
    exact size_formula hostep (by omega) (by omega)

theorem inv_popState {q : MultiStackQueue T N M} {id : Nat}
    (hInv : Inv q) (hid : id < M) (he : q.empty id = false) :
    Inv (popState q id) := by
  obtain ⟨hi, ho, hei, hocc⟩ := hInv id hid
  have h0 : 0 < N := by omega
  have hins := ins_eq_outs_add_size hi ho hei
  have hpos := size_pos_of_not_empty ho he
  have hle := size_le hi ho
  have hsz' := laneSize_popState hi ho hei he
  intro j hj
  by_cases hji : j = id
  · subst hji
    have hi' : (popState q j).ins j = q.ins j := rfl
    have ho' : (popState q j).outs j = (q.outs j + 1) % N := by simp [popState]
    refine ⟨hi, by rw [ho']; exact Nat.mod_lt _ h0, ?_, ?_⟩
    · intro hetrue
      rw [hi', ho']
      by_cases hc : (q.outs j + 1) % N = q.ins j
      · exact hc.symm
      · exfalso
        have hfalse : (popState q j).empty j = false := by
          simp [popState, hc, he]
        rw [hfalse] at hetrue
        exact Bool.noConfusion hetrue
    · intro s hs
      rw [hsz', ho']
      have hdata : (popState q j).data j s =
          if s = q.outs j then none else q.data j s := by
        simp [popState]
      rw [hdata]
      have h00 : (q.outs j + 0) % N = q.outs j := by
        rw [Nat.add_zero, Nat.mod_eq_of_lt ho]
      by_cases hso : s = q.outs j
      · rw [if_pos hso]
        simp only [Option.isSome_none, Bool.false_eq_true, false_iff]
        rintro ⟨t, ht, hts⟩
        rw [shift_mod] at hts
        have ht1 : t + 1 = 0 :=
          mod_cancel (by omega) h0 (by rw [hts, hso]; exact h00.symm)
        omega
      · rw [if_neg hso, hocc s hs]
        constructor
        · rintro ⟨t, ht, hts⟩
          have ht0 : t ≠ 0 := by
            intro h
            subst h
            exact hso (hts.symm.trans h00)
          refine ⟨t - 1, by omega, ?_⟩
          rw [shift_mod]
          have harith : t - 1 + 1 = t := by omega
          rw [harith]
          exact hts
        · rintro ⟨t, ht, hts⟩
          rw [shift_mod] at hts
          exact ⟨t + 1, by omega, hts⟩
  · obtain ⟨hins', houts', hemp', hdata'⟩ := popState_frame hji
    obtain ⟨hi2, ho2, hei2, hocc2⟩ := hInv j hj
    refine ⟨by rw [hins']; exact hi2, by rw [houts']; exact ho2, ?_, ?_⟩
    · rw [hemp', hins', houts']
      exact hei2
    · intro s hs
      rw [hdata' s, houts', laneSize_popState_frame hji]
      exact hocc2 s hs

theorem laneVals_pop_decomp {q : MultiStackQueue T N M} {id : Nat}
    (hi : q.ins id < N) (ho : q.outs id < N)
    (hei : q.empty id = true → q.ins id = q.outs id)
    (he : q.empty id = false) :
    laneVals q id = q.data id (q.outs id) :: laneVals (popState q id) id := by
  have h0 : 0 < N := by omega
  have hpos := size_pos_of_not_empty ho he
  have hle := size_le hi ho
  have hsz' := laneSize_popState hi ho hei he
  have ho' : (popState q id).outs id = (q.outs id + 1) % N := by simp [popState]
  have h00 : (q.outs id + 0) % N = q.outs id := by
    rw [Nat.add_zero, Nat.mod_eq_of_lt ho]
  rw [laneVals, laneVals, hsz', ho']
  have hrange : laneSize q id = (laneSize q id - 1) + 1 := by omega
  rw [hrange, List.range_succ_eq_map, List.map_cons, List.map_map]
  congr 1
  · rw [h00]
  · apply List.map_congr_left
    intro t ht
    rw [List.mem_range] at ht
    simp only [Function.comp_apply]
    have hdata : ∀ s, (popState q id).data id s =
        if s = q.outs id then none else q.data id s := by
      intro s
      simp [popState]
    rw [hdata, shift_mod]
    have hne : (q.outs id + (t + 1)) % N ≠ q.outs id := by
      intro hcontra
      have ht1 : t + 1 = 0 :=
        mod_cancel (by omega) h0 (by rw [hcontra]; exact h00.symm)
      omega
    rw [if_neg hne]

theorem inv_new (hN : 0 < N) : Inv (new T N M) := by
  intro id hid
  refine ⟨hN, hN, fun _ => rfl, ?_⟩
  intro s hs
  simp [new, laneSize]

theorem inv_preserved_push {q q' : MultiStackQueue T N M} {id : Nat} {v : T}
    {r : Except MSQError Unit} (hInv : Inv q)
    (h : q.push id v = some (r, q')) : Inv q' := by
  rcases push_cases h with ⟨_, _, rfl⟩ | ⟨_, _, _, rfl⟩ | ⟨hid, hnf, _, _, rfl⟩
  · exact hInv
  · exact hInv
  · exact inv_pushState hInv hid hnf v

theorem inv_preserved_pop {q q' : MultiStackQueue T N M} {id : Nat}
    {r : Except MSQError T} (hInv : Inv q)
    (h : q.pop id = some (r, q')) : Inv q' := by
  rcases pop_cases h with ⟨_, _, rfl⟩ | ⟨_, _, _, rfl⟩ |
    ⟨hid, he, _, res, _, _, rfl⟩
  · exact hInv
  · exact hInv
  · exact inv_popState hInv hid he

/-- Every state reachable from `new` (for positive capacity) satisfies the
ring-buffer invariant. -/
theorem inv_reach (hN : 0 < N) {q : MultiStackQueue T N M}
    (h : Reachable T N M q) : Inv q := by
  induction h with
  | init => exact inv_new hN
  | push_step hq hstep ih => exact inv_preserved_push ih hstep
  | pop_step hq hstep ih => exact inv_preserved_pop ih hstep

/-- A sequence of pushes to lane `id` that fits in the remaining capacity
succeeds on every call and appends its values to the lane contents. -/
theorem pushSeq_ok {id : Nat} (hid : id < M) :
    ∀ (vs : List T) (q : MultiStackQueue T N M), Inv q →
      laneSize q id + vs.length ≤ N →
      ∃ q', q.pushSeq id vs = some q' ∧ Inv q' ∧
        laneVals q' id = laneVals q id ++ vs.map some ∧
        laneSize q' id = laneSize q id + vs.length := by
  intro vs
  induction vs with
  | nil =>
    intro q hInv hle
    exact ⟨q, rfl, hInv, by simp, by simp⟩
  | cons v vs ih =>
    intro q hInv hle
    obtain ⟨hi, ho, hei, hocc⟩ := hInv id hid
    rw [List.length_cons] at hle
    have hnf : ¬(q.ins id = q.outs id ∧ q.empty id = false) := by
      intro hf
      have hfull := (full_iff_size_eq hi ho).mp hf
      omega
    have hpush := push_eq_ok hid hnf hi v
    have hInv' := inv_pushState hInv hid hnf v
    have hsz' := laneSize_pushState hi ho hei hnf v
    have hvals' := laneVals_pushState hi ho hei hnf v
    obtain ⟨q', hseq, hInv2, hvals2, hsz2⟩ :=
      ih (pushState q id v) hInv' (by omega)
    refine ⟨q', ?_, hInv2, ?_, ?_⟩
    · simp only [pushSeq]
      rw [hpush]
      exact hseq
    · rw [hvals2, hvals', List.map_cons, List.append_assoc,
        List.singleton_append]
    · rw [hsz2, hsz', List.length_cons]
      omega

/-- Popping a lane as many times as it holds values succeeds on every call
and returns exactly those values, leaving the lane empty. -/
theorem popSeq_ok {id : Nat} (hid : id < M) :
    ∀ (ws : List T) (q : MultiStackQueue T N M), Inv q →
      laneVals q id = ws.map some →
      ∃ q', q.popSeq id ws.length = some (ws, q') ∧ Inv q' ∧
        laneVals q' id = [] ∧ laneSize q' id = 0 := by
  intro ws
  induction ws with
  | nil =>
    intro q hInv hvals
    have hsz : laneSize q id = 0 := by
      have hl := laneVals_length q id
      rw [hvals] at hl
      simpa using hl.symm
    exact ⟨q, rfl, hInv, by simpa using hvals, hsz⟩
  | cons w ws ih =>
    intro q hInv hvals
    obtain ⟨hi, ho, hei, hocc⟩ := hInv id hid
    have he : q.empty id = false := by
      cases hemp : q.empty id
      · rfl
      · exfalso
        rw [laneVals_of_empty hemp, List.map_cons] at hvals
        exact List.noConfusion hvals
    have hdecomp := laneVals_pop_decomp hi ho hei he
    rw [hvals, List.map_cons] at hdecomp
    injection hdecomp with h1 h2
    have hpop := pop_eq_ok hid he ho h1.symm
    obtain ⟨q', hseq, hInv2, hv2, hs2⟩ :=
      ih (popState q id) (inv_popState hInv hid he) h2.symm
    refine ⟨q', ?_, hInv2, hv2, hs2⟩
    rw [List.length_cons]
    simp only [popSeq]
    rw [hpop]
    simp only []
    rw [hseq]

/-- C1 (FIFO order per lane): in any state satisfying the data-model
invariant in which lane `id < M` is empty, a sequence of `k ≤ N` successful
pushes of values `v1, …, vk` to that lane with no interleaved pops is
followed by `k` pops on that lane that all succeed and return
`v1, …, vk` in exactly that order. -/
theorem fifo_order {T : Type} {N M : Nat} {q : MultiStackQueue T N M}
    (hInv : Inv q) (id : Nat) (hid : id < M) (he : q.empty id = true)
    (vs : List T) (hk : vs.length ≤ N) :
    ∃ q' q'', q.pushSeq id vs = some q' ∧
      q'.popSeq id vs.length = some (vs, q'') := by
  have hsz : laneSize q id = 0 := laneSize_of_empty he
  obtain ⟨q', hseq, hInv', hvals', _⟩ := pushSeq_ok hid vs q hInv (by omega)
  rw [laneVals_of_empty he, List.nil_append] at hvals'
  obtain ⟨q'', hseq2, _, _, _⟩ := popSeq_ok hid vs q' hInv' hvals'
  exact ⟨q', q'', hseq, hseq2⟩

/-- Witness for `fifo_order`: `N = 2`, `M = 1`, pushing `[5, 7]` to lane 0
of a fresh container. -/
theorem fifo_order_witness :
    ∃ q' q'', (new Nat 2 1).pushSeq 0 [5, 7] = some q' ∧
      q'.popSeq 0 [5, 7].length = some ([5, 7], q'') :=
  fifo_order (inv_new (by decide)) 0 (by decide) rfl [5, 7] (by decide)

/-- C2 counterexample: the claim quantifies over every `N`, but at `N = 0`,
`M = 1` the "(N+1)-th" (first) push to the empty lane 0 of the reachable
initial state panics — it indexes the zero-length slot array
`data[0][0]` — instead of failing with `QueueFull`. -/
theorem capacity_counterexample :
    (new Nat 0 1).pushSeq 0 [] = some (new Nat 0 1) ∧
    (new Nat 0 1).push 0 42 = none :=
  ⟨rfl, rfl⟩

/-- C2 amended (capacity boundary, for `N ≥ 1`): from any valid state in
which lane `id < M` is empty, pushing exactly `N` values succeeds on every
one of the `N` calls, and the `(N+1)`-th push without an intervening pop
fails with `QueueFull` and returns the container — slots, cursors and
empty flag — unchanged. -/
theorem capacity_boundary {T : Type} {N M : Nat} (hN : 0 < N)
    {q : MultiStackQueue T N M} (hInv : Inv q) (id : Nat) (hid : id < M)
    (he : q.empty id = true) (vs : List T) (hlen : vs.length = N) (w : T) :
    ∃ q', q.pushSeq id vs = some q' ∧
      q'.push id w = some (Except.error MSQError.QueueFull, q') := by
  have hsz : laneSize q id = 0 := laneSize_of_empty he
  obtain ⟨q', hseq, hInv', _, hsz'⟩ := pushSeq_ok hid vs q hInv (by omega)
  obtain ⟨hi', ho', hei', hocc'⟩ := hInv' id hid
  have hfull : q'.ins id = q'.outs id ∧ q'.empty id = false :=
    (full_iff_size_eq hi' ho').mpr (by omega)
  exact ⟨q', hseq, push_eq_full hid hfull w⟩

/-- Witness for `capacity_boundary`: `N = 1`, `M = 1`, pushing `[3]` and
then `9` to lane 0 of a fresh container. -/
theorem capacity_boundary_witness :
    ∃ q', (new Nat 1 1).pushSeq 0 [3] = some q' ∧
      q'.push 0 9 = some (Except.error MSQError.QueueFull, q') :=
  capacity_boundary (by decide) (inv_new (by decide)) 0 (by decide) rfl
    [3] rfl 9

/-- C3 (empty boundary): in any state satisfying the data-model invariant
in which lane `id < M` holds zero values, `pop` fails with `QueueEmpty`
and returns the whole container unchanged. -/
theorem empty_boundary {T : Type} {N M : Nat} {q : MultiStackQueue T N M}
    (hInv : Inv q) (id : Nat) (hid : id < M) (hzero : laneVals q id = []) :
    q.pop id = some (Except.error MSQError.QueueEmpty, q) := by
  obtain ⟨hi, ho, hei, hocc⟩ := hInv id hid
  have hsz : laneSize q id = 0 := by
    have hl := laneVals_length q id
    rw [hzero] at hl
    simpa using hl.symm
  have he : q.empty id = true := by
    cases hemp : q.empty id
    · exfalso
      have := size_pos_of_not_empty ho hemp
      omega
    · rfl
  exact pop_eq_empty hid he

/-- Witness for `empty_boundary`: lane 0 of a fresh `N = 1`, `M = 1`
container. -/
theorem empty_boundary_witness :
    (new Nat 1 1).pop 0 =
      some (Except.error MSQError.QueueEmpty, new Nat 1 1) :=
  empty_boundary (inv_new (by decide)) 0 (by decide) rfl

/-- C4 (bounds check): for every `N`, `M`, every state and every
`lane_id ≥ M`, both `push` (for any value) and `pop` fail with
`QueueIndexOutOfBounds` and return the container unchanged. -/
theorem bounds_check {T : Type} {N M : Nat} (q : MultiStackQueue T N M)
    (id : Nat) (hid : M ≤ id) (v : T) :
    q.push id v = some (Except.error MSQError.QueueIndexOutOfBounds, q) ∧
    q.pop id = some (Except.error MSQError.QueueIndexOutOfBounds, q) :=
  ⟨push_eq_oob hid v, pop_eq_oob hid⟩

/-- Witness for `bounds_check`: lane 1 of a fresh `N = 1`, `M = 1`
container. -/
theorem bounds_check_witness :
    (new Nat 1 1).push 1 0 =
      some (Except.error MSQError.QueueIndexOutOfBounds, new Nat 1 1) ∧
    (new Nat 1 1).pop 1 =
      some (Except.error MSQError.QueueIndexOutOfBounds, new Nat 1 1) :=
  bounds_check (new Nat 1 1) 1 (by decide) 0

/-- C5 counterexample: the claim quantifies over every `N` and `M`, but at
`N = 0`, `M = 1` the initial state is reachable and lane 0 has
`in_cursor = 0`, which is not `< N`. -/
theorem invariant_counterexample :
    Reachable Nat 0 1 (new Nat 0 1) ∧ ¬(new Nat 0 1).ins 0 < 0 :=
  ⟨Reachable.init, by omega⟩

/-- C5 amended (data-model invariant, for `N ≥ 1`): in every state
reachable from `new` by push and pop calls, every lane `id < M` has both
cursors in `[0, N)`, its empty flag set exactly when it holds zero values,
a value in the slot at `out_cursor` whenever non-empty, and values exactly
in the slots of the window from `out_cursor` (inclusive) of `laneSize`
steps walked modulo `N` — all other slots vacant. -/
theorem reachable_invariant {T : Type} {N M : Nat} (hN : 0 < N)
    {q : MultiStackQueue T N M} (hq : Reachable T N M q) (id : Nat)
    (hid : id < M) :
    q.ins id < N ∧ q.outs id < N ∧
    (q.empty id = true ↔ laneVals q id = []) ∧
    (q.empty id = false → (q.data id (q.outs id)).isSome = true) ∧
    (∀ s, s < N → ((q.data id s).isSome = true ↔
      ∃ t, t < laneSize q id ∧ (q.outs id + t) % N = s)) := by
  have hInv := inv_reach hN hq
  obtain ⟨hi, ho, hei, hocc⟩ := hInv id hid
  refine ⟨hi, ho, ⟨fun he => laneVals_of_empty he, ?_⟩, ?_, hocc⟩
  · intro hv
    cases hemp : q.empty id
    · exfalso
      have hpos := size_pos_of_not_empty ho hemp
      have hl := laneVals_length q id
      rw [hv] at hl
      simp at hl
      omega
    · rfl
  · intro he
    rw [hocc (q.outs id) ho]
    have hpos := size_pos_of_not_empty ho he
    exact ⟨0, by omega, by rw [Nat.add_zero, Nat.mod_eq_of_lt ho]⟩

/-- Witness for `reachable_invariant`: lane 0 of the fresh `N = 1`,
`M = 1` container. -/
theorem reachable_invariant_witness :
    (new Nat 1 1).ins 0 < 1 ∧ (new Nat 1 1).outs 0 < 1 ∧
    ((new Nat 1 1).empty 0 = true ↔ laneVals (new Nat 1 1) 0 = []) ∧
    ((new Nat 1 1).empty 0 = false →
      ((new Nat 1 1).data 0 ((new Nat 1 1).outs 0)).isSome = true) ∧
    (∀ s, s < 1 → (((new Nat 1 1).data 0 s).isSome = true ↔
      ∃ t, t < laneSize (new Nat 1 1) 0 ∧
        ((new Nat 1 1).outs 0 + t) % 1 = s)) :=
  reachable_invariant (by decide) Reachable.init 0 (by decide)

/-- C6 counterexample: the claim quantifies over every `N` and `M`, but at
`N = 0`, `M = 1` the reachable initial state panics on `push` (modelled by
`none`: the write `data[0][0]` indexes a zero-length array) instead of
returning a discriminated `Result`. -/
theorem taxonomy_counterexample :
    Reachable Nat 0 1 (new Nat 0 1) ∧ (new Nat 0 1).push 0 0 = none :=
  ⟨Reachable.init, rfl⟩

/-- C6 amended (error-taxonomy totality, for `N ≥ 1`): in every reachable
state, for every lane id and value, `push` and `pop` return a
discriminated outcome — `Ok`, or exactly one of `QueueFull` / `QueueEmpty`
/ `QueueIndexOutOfBounds` — never panic (`none`; in particular `pop`'s
internal `unwrap` never fails) and never produce `UnknowmError`. -/
theorem error_taxonomy {T : Type} {N M : Nat} (hN : 0 < N)
    {q : MultiStackQueue T N M} (hq : Reachable T N M q) (id : Nat)
    (v : T) :
    (∃ r q', q.push id v = some (r, q') ∧
      (r = Except.ok () ∨ r = Except.error MSQError.QueueFull ∨
        r = Except.error MSQError.QueueIndexOutOfBounds)) ∧
    (∃ r q', q.pop id = some (r, q') ∧
      ((∃ x, r = Except.ok x) ∨ r = Except.error MSQError.QueueEmpty ∨
        r = Except.error MSQError.QueueIndexOutOfBounds)) := by
  have hInv := inv_reach hN hq
  constructor
  · rcases Nat.lt_or_ge id M with hid | hid
    · obtain ⟨hi, ho, hei, hocc⟩ := hInv id hid
      by_cases hf : q.ins id = q.outs id ∧ q.empty id = false
      · exact ⟨_, _, push_eq_full hid hf v, Or.inr (Or.inl rfl)⟩
      · exact ⟨_, _, push_eq_ok hid hf hi v, Or.inl rfl⟩
    · exact ⟨_, _, push_eq_oob hid v, Or.inr (Or.inr rfl)⟩
  · rcases Nat.lt_or_ge id M with hid | hid
    · obtain ⟨hi, ho, hei, hocc⟩ := hInv id hid
      cases hemp : q.empty id
      · have hpos := size_pos_of_not_empty ho hemp
        have hs : (q.data id (q.outs id)).isSome = true := by
          rw [hocc (q.outs id) ho]
          exact ⟨0, by omega, by rw [Nat.add_zero, Nat.mod_eq_of_lt ho]⟩
        obtain ⟨res, hres⟩ := Option.isSome_iff_exists.mp hs
        exact ⟨_, _, pop_eq_ok hid hemp ho hres, Or.inl ⟨res, rfl⟩⟩
      · exact ⟨_, _, pop_eq_empty hid hemp, Or.inr (Or.inl rfl)⟩
    · exact ⟨_, _, pop_eq_oob hid, Or.inr (Or.inr rfl)⟩

/-- Witness for `error_taxonomy`: push and pop on lane 0 of a fresh
`N = 1`, `M = 1` container. -/
theorem error_taxonomy_witness :
    (∃ r q', (new Nat 1 1).push 0 0 = some (r, q') ∧
      (r = Except.ok () ∨ r = Except.error MSQError.QueueFull ∨
        r = Except.error MSQError.QueueIndexOutOfBounds)) ∧
    (∃ r q', (new Nat 1 1).pop 0 = some (r, q') ∧
      ((∃ x, r = Except.ok x) ∨ r = Except.error MSQError.QueueEmpty ∨
        r = Except.error MSQError.QueueIndexOutOfBounds)) :=
  error_taxonomy (by decide) Reachable.init 0 0

/-- C7 (round-trip idempotence of capacity): from any valid state in which
lane `id < M` is empty — the starting cursor positions are arbitrary —
pushing `N` values succeeds on every call, popping all `N` returns exactly
those values and leaves the lane reporting empty, and a further sequence
of `N` pushes again succeeds on every call: wraparound does not degrade
capacity. -/
theorem round_trip {T : Type} {N M : Nat} {q : MultiStackQueue T N M}
    (hInv : Inv q) (id : Nat) (hid : id < M) (he : q.empty id = true)
    (vs ws : List T) (hvs : vs.length = N) (hws : ws.length = N) :
    ∃ q1 q2 q3, q.pushSeq id vs = some q1 ∧
      q1.popSeq id N = some (vs, q2) ∧
      q2.is_empty id = some true ∧
      q2.pushSeq id ws = some q3 := by
  have hsz : laneSize q id = 0 := laneSize_of_empty he
  obtain ⟨q1, h1, hInv1, hvals1, _⟩ := pushSeq_ok hid vs q hInv (by omega)
  rw [laneVals_of_empty he, List.nil_append] at hvals1
  obtain ⟨q2, h2, hInv2, hvals2, hsz2⟩ := popSeq_ok hid vs q1 hInv1 hvals1
  have he2 : q2.empty id = true := by
    obtain ⟨hi2, ho2, hei2, hocc2⟩ := hInv2 id hid
    cases hemp : q2.empty id
    · exfalso
      have := size_pos_of_not_empty ho2 hemp
      omega
    · rfl
  obtain ⟨q3, h3, _, _, _⟩ := pushSeq_ok hid ws q2 hInv2 (by omega)
  refine ⟨q1, q2, q3, h1, ?_, ?_, h3⟩
  · rw [hvs] at h2
    exact h2
  · rw [is_empty, if_pos hid, he2]

/-- Witness for `round_trip`: `N = 1`, `M = 1`, pushing `[4]`, popping it,
then pushing `[6]`. -/
theorem round_trip_witness :
    ∃ q1 q2 q3, (new Nat 1 1).pushSeq 0 [4] = some q1 ∧
      q1.popSeq 0 1 = some ([4], q2) ∧
      q2.is_empty 0 = some true ∧
      q2.pushSeq 0 [6] = some q3 :=
  round_trip (inv_new (by decide)) 0 (by decide) rfl [4] [6] rfl rfl

/-- C8 (initialization postcondition): `new` — a total constructor with no
fallible path — returns a container in which every lane `id < M` holds
zero values, has `in_cursor = out_cursor = 0`, reports empty, and reports
not full. -/
theorem new_postcondition (T : Type) (N M : Nat) (id : Nat) (hid : id < M) :
    (new T N M).ins id = 0 ∧ (new T N M).outs id = 0 ∧
    laneVals (new T N M) id = [] ∧
    (new T N M).is_empty id = some true ∧
    (new T N M).is_full id = some false := by
  refine ⟨rfl, rfl, laneVals_of_empty rfl, ?_, ?_⟩
  · rw [is_empty, if_pos hid]
    rfl
  · rw [is_full, if_pos hid]
    rfl

/-- Witness for `new_postcondition`: lane 0 of a fresh `N = 1`, `M = 1`
container. -/
theorem new_postcondition_witness :
    (new Nat 1 1).ins 0 = 0 ∧ (new Nat 1 1).outs 0 = 0 ∧
    laneVals (new Nat 1 1) 0 = [] ∧
    (new Nat 1 1).is_empty 0 = some true ∧
    (new Nat 1 1).is_full 0 = some false :=
  new_postcondition Nat 1 1 0 (by decide)

/-- C9 (frame property): for every state, any `push` or `pop` on lane
`id < M` — whether it succeeds or fails — leaves the slots, `in_cursor`,
`out_cursor` and empty flag of every lane other than `id` exactly
unchanged. -/
theorem frame_property {T : Type} {N M : Nat} (q : MultiStackQueue T N M)
    (id : Nat) (hid : id < M) (v : T) :
    (∀ r q', q.push id v = some (r, q') → ∀ j, j ≠ id →
      q'.ins j = q.ins j ∧ q'.outs j = q.outs j ∧
      q'.empty j = q.empty j ∧ ∀ s, q'.data j s = q.data j s) ∧
    (∀ r q', q.pop id = some (r, q') → ∀ j, j ≠ id →
      q'.ins j = q.ins j ∧ q'.outs j = q.outs j ∧
      q'.empty j = q.empty j ∧ ∀ s, q'.data j s = q.data j s) := by
  constructor
  · intro r q' h j hj
    rcases push_cases h with ⟨_, _, rfl⟩ | ⟨_, _, _, rfl⟩ |
      ⟨_, _, _, _, rfl⟩
    · exact ⟨rfl, rfl, rfl, fun s => rfl⟩
    · exact ⟨rfl, rfl, rfl, fun s => rfl⟩
    · exact pushState_frame hj v
  · intro r q' h j hj
    rcases pop_cases h with ⟨_, _, rfl⟩ | ⟨_, _, _, rfl⟩ |
      ⟨_, _, _, res, _, _, rfl⟩
    · exact ⟨rfl, rfl, rfl, fun s => rfl⟩
    · exact ⟨rfl, rfl, rfl, fun s => rfl⟩
    · exact popState_frame hj

/-- Witness for `frame_property`: lane 0 of a fresh `N = 1`, `M = 2`
container. -/
theorem frame_property_witness :
    (∀ r q', (new Nat 1 2).push 0 0 = some (r, q') → ∀ j, j ≠ 0 →
      q'.ins j = (new Nat 1 2).ins j ∧ q'.outs j = (new Nat 1 2).outs j ∧
      q'.empty j = (new Nat 1 2).empty j ∧
      ∀ s, q'.data j s = (new Nat 1 2).data j s) ∧
    (∀ r q', (new Nat 1 2).pop 0 = some (r, q') → ∀ j, j ≠ 0 →
      q'.ins j = (new Nat 1 2).ins j ∧ q'.outs j = (new Nat 1 2).outs j ∧
      q'.empty j = (new Nat 1 2).empty j ∧
      ∀ s, q'.data j s = (new Nat 1 2).data j s) :=
  frame_property (new Nat 1 2) 0 (by decide) 0

/-- C10 (unchecked queries): `is_full` and `is_empty` perform no bounds
check on the lane id: for every `id ≥ M` they index the length-`M`
bookkeeping arrays out of range and abort (`none`) instead of returning a
boolean or an error, while for `id < M` they return the boolean read off
the lane's state (they take the container immutably and produce no
post-state, so they mutate nothing). -/
theorem query_bounds {T : Type} {N M : Nat} (q : MultiStackQueue T N M)
    (id : Nat) :
    (M ≤ id → q.is_full id = none ∧ q.is_empty id = none) ∧
    (id < M →
      q.is_full id = some (!q.empty id && (q.ins id == q.outs id)) ∧
      q.is_empty id = some (q.empty id)) := by
  refine ⟨fun h => ⟨?_, ?_⟩, fun h => ⟨?_, ?_⟩⟩
  · rw [is_full, if_neg (by omega)]
  · rw [is_empty, if_neg (by omega)]
  · rw [is_full, if_pos h]
  · rw [is_empty, if_pos h]

/-- Witness for `query_bounds`: lane 1 (out of range) and lane 0 (in
range) of a fresh `N = 1`, `M = 1` container. -/
theorem query_bounds_witness :
    ((new Nat 1 1).is_full 1 = none ∧ (new Nat 1 1).is_empty 1 = none) ∧
    ((new Nat 1 1).is_full 0 =
        some (!(new Nat 1 1).empty 0 &&
          ((new Nat 1 1).ins 0 == (new Nat 1 1).outs 0)) ∧
      (new Nat 1 1).is_empty 0 = some ((new Nat 1 1).empty 0)) :=
  ⟨(query_bounds (new Nat 1 1) 1).1 (by decide),
   (query_bounds (new Nat 1 1) 0).2 (by decide)⟩

end MultiStackQueue
